import Mathlib

/-!
Verification of the terrain / capsule-physics core of `src/main.cpp`
(LotusVale).  Float arithmetic is modelled exactly over `ℚ` for the grid
queries, the spawn scan and the capsule physics, and over `ℝ` for the
trigonometric fractal-noise generator.  `static_cast<int>` on a
non-negative-or-negative rational is truncation toward zero, modelled by
`ratTrunc`; `std::clamp` is `stdClamp`; `glm::mix` is `mix`.
-/

/-- Truncation toward zero, the behaviour of `static_cast<int>` on a real
value: floor for non-negative inputs, ceiling for negative ones. -/
def ratTrunc (q : ℚ) : ℤ :=
  if q < 0 then -⌊-q⌋ else ⌊q⌋

/-- `std::clamp(v, lo, hi)` on integers. -/
def stdClamp (v lo hi : ℤ) : ℤ :=
  max lo (min v hi)

/-- `glm::mix(a, b, t) = a*(1-t) + b*t`. -/
def mix (a b t : ℚ) : ℚ :=
  a * (1 - t) + b * t

/-- Read cell `(row z, column x)` of the height map, as the C++ indexing
`heightMap[z][x]` does once the indices have been clamped into range. -/
def cellAt (g : List (List ℚ)) (z x : ℤ) : ℚ :=
  (g.getD z.toNat []).getD x.toNat 0

/-- `getHeight` from `src/main.cpp` (lines 155-166): nearest-cell height
query with spacing 10, indices truncated from world coordinates and clamped
to `[0, W-1] × [0, H-1]`.  The grid and its compile-time dimensions
`GRID_W`/`GRID_H` are parameters here. -/
def getHeight (g : List (List ℚ)) (W H : ℕ) (x z : ℚ) : ℚ :=
  let gridX := stdClamp (ratTrunc (x / 10)) 0 ((W : ℤ) - 1)
  let gridZ := stdClamp (ratTrunc (z / 10)) 0 ((H : ℤ) - 1)
  cellAt g gridZ gridX

/-- `getInterpolatedHeight` from `src/main.cpp` (lines 84-108): bilinear
height query.  Note that the fractional offsets `tx`, `tz` are computed from
the *unclamped* cell indices, exactly as in the source. -/
def getInterpolatedHeight (g : List (List ℚ)) (W H : ℕ) (x z : ℚ) : ℚ :=
  let x0 := ratTrunc (x / 10)
  let z0 := ratTrunc (z / 10)
  let x1 := x0 + 1
  let z1 := z0 + 1
  let tx := x / 10 - (x0 : ℚ)
  let tz := z / 10 - (z0 : ℚ)
  let x0c := stdClamp x0 0 ((W : ℤ) - 1)
  let x1c := stdClamp x1 0 ((W : ℤ) - 1)
  let z0c := stdClamp z0 0 ((H : ℤ) - 1)
  let z1c := stdClamp z1 0 ((H : ℤ) - 1)
  let h00 := cellAt g z0c x0c
  let h10 := cellAt g z0c x1c
  let h01 := cellAt g z1c x0c
  let h11 := cellAt g z1c x1c
  let hx0 := mix h00 h10 tx
  let hx1 := mix h01 h11 tx
  mix hx0 hx1 tz

/-- The per-instance constant `gravity = -9.8f` of `CapsuleCollider`. -/
def gravity : ℚ := -(98 / 10)

/-- The state of `CapsuleCollider` (`src/main.cpp` lines 169-240). -/
structure CapsuleCollider where
  posX : ℚ
  posY : ℚ
  posZ : ℚ
  velocityY : ℚ
  capsuleRadius : ℚ
  onGround : Bool
  clamped : Bool
  height : ℚ

/-- The `CapsuleCollider` constructor (lines 181-184): velocity zero,
`onGround` and `clamped` false. -/
def CapsuleCollider.init (x y z height radius : ℚ) : CapsuleCollider :=
  { posX := x, posY := y, posZ := z, velocityY := 0,
    capsuleRadius := radius, onGround := false, clamped := false,
    height := height }

/-- The active `CapsuleCollider::update` (lines 186-204): integrate gravity,
predict the vertical position, snap to the terrain when the capsule bottom
would reach or cross it. -/
def CapsuleCollider.update (c : CapsuleCollider) (dt : ℚ)
    (getTerrainHeight : ℚ → ℚ → ℚ) : CapsuleCollider :=
  let velocityY := c.velocityY + gravity * dt
  let newY := c.posY + velocityY * dt
  let terrainY := getTerrainHeight c.posX c.posZ
  let capsuleBottom := newY - c.height / 2
  if capsuleBottom ≤ terrainY then
    { c with posY := terrainY + c.height / 2, velocityY := 0 }
  else
    { c with posY := newY, velocityY := velocityY }

/-- `CapsuleCollider::moveHorizontal` (lines 236-239). -/
def CapsuleCollider.moveHorizontal (c : CapsuleCollider) (dx dz : ℚ) :
    CapsuleCollider :=
  { c with posX := c.posX + dx, posZ := c.posZ + dz }

/-- The flatness test of `findSpawnPoint` on cell `(y, x)`: the absolute
elevation differences to the cell one step right and one step down are both
below the threshold `1.0f`. -/
def flatAt (g : List (List ℚ)) (y x : ℕ) : Bool :=
  let center := (g.getD y []).getD x 0
  let dx := |center - (g.getD y []).getD (x + 1) 0|
  let dz := |center - (g.getD (y + 1) []).getD x 0|
  decide (dx < 1) && decide (dz < 1)

/-- `findSpawnPoint` (lines 458-481): scan rows `y = 5 .. h-6`, within each
row columns `x = 5 .. w-6`, return the world position above the first flat
cell, or the fallback `(0, 50, 0)`. -/
def findSpawnPoint (g : List (List ℚ))
    (spacing capsuleHeight capsuleRadius : ℚ) : ℚ × ℚ × ℚ :=
  let w := (g.getD 0 []).length
  let h := g.length
  match (List.range' 5 (h - 10)).findSome? (fun y =>
      ((List.range' 5 (w - 10)).find? (fun x => flatAt g y x)).map
        (fun x => (y, x))) with
  | some (y, x) =>
      ((x : ℚ) * spacing,
       (g.getD y []).getD x 0 + capsuleHeight * (1 / 2) + capsuleRadius
         + 1 / 10,
       (y : ℚ) * spacing)
  | none => (0, 50, 0)

/-- One pass of the accumulation loop of `fractalNoise` (`src/main.cpp`
lines 29-42), returning the pair `(total, maxValue)` accumulated over `n`
octaves starting from the given `frequency` and `amplitude`.  The loop body
adds `amplitude * (0.5*sin(x*frequency)*cos(y*frequency) + 0.5)` to the
total and `amplitude` to `maxValue`, then doubles the frequency and scales
the amplitude by `persistence`. -/
noncomputable def fractalLayers (x y persistence : ℝ) :
    ℕ → ℝ → ℝ → ℝ × ℝ
  | 0, _, _ => (0, 0)
  | n + 1, frequency, amplitude =>
      let rest := fractalLayers x y persistence n (frequency * 2)
        (amplitude * persistence)
      (amplitude * (0.5 * Real.sin (x * frequency) * Real.cos (y * frequency)
          + 0.5) + rest.1,
       amplitude + rest.2)

/-- `fractalNoise` (lines 29-42): the accumulated total divided by the sum
of the layer amplitudes, with initial frequency `0.5f` and initial
amplitude `64.0f`. -/
noncomputable def fractalNoise (x y : ℝ) (octaves : ℕ) (persistence : ℝ) :
    ℝ :=
  (fractalLayers x y persistence octaves 0.5 64).1 /
    (fractalLayers x y persistence octaves 0.5 64).2

/-- `generateHeightMap` (lines 47-57): `h` rows of `w` columns, cell
`(x, y)` holding `(fractalNoise(x*scale, y*scale) - 0.5) * 50` with the
default noise parameters `octaves = 6`, `persistence = 0.7f`. -/
noncomputable def generateHeightMap (w h : ℕ) (scale : ℝ) :
    List (List ℝ) :=
  (List.range h).map fun (y : ℕ) => (List.range w).map fun (x : ℕ) =>
    (fractalNoise ((x : ℝ) * scale) ((y : ℝ) * scale) 6 0.7 - 0.5) * 50

/-- `generateVertices` (lines 59-70): the flat vertex stream, three floats
`(x*10, elevation, y*10)` per cell in row-major order, the elevation
recomputed by the same formula as `generateHeightMap`. -/
noncomputable def generateVertices (w h : ℕ) (scale : ℝ) : List ℝ :=
  (List.range h).flatMap fun (y : ℕ) => (List.range w).flatMap fun (x : ℕ) =>
    [(x : ℝ) * 10,
     (fractalNoise ((x : ℝ) * scale) ((y : ℝ) * scale) 6 0.7 - 0.5) * 50,
     (y : ℝ) * 10]

example : getHeight [[1, 2], [3, 4]] 2 2 15 5 = 2 := by
  norm_num [getHeight, stdClamp, ratTrunc, cellAt]
example : getHeight [[1, 2], [3, 4]] 2 2 (-5) 25 = 3 := by
  norm_num [getHeight, stdClamp, ratTrunc, cellAt]
example : getInterpolatedHeight [[0, 10]] 2 1 5 0 = 5 := by
  norm_num [getInterpolatedHeight, stdClamp, ratTrunc, cellAt, mix]
example : getInterpolatedHeight [[0, 10]] 2 1 (-5) 0 = -5 := by
  norm_num [getInterpolatedHeight, stdClamp, ratTrunc, cellAt, mix]
example :
    ((CapsuleCollider.init 0 0 0 4 1).update 1 (fun _ _ => 0)).posY = 2 := by
  norm_num [CapsuleCollider.init, CapsuleCollider.update, gravity]
example :
    findSpawnPoint (List.replicate 11 (List.replicate 11 (0 : ℚ))) 10 4 1 =
      (50, 31 / 10, 50) := by
  norm_num [findSpawnPoint, flatAt, List.range']

/-! ### Helper lemmas for the fractal noise accumulator -/

lemma fractalLayers_bounds (x y p : ℝ) (hp : 0 ≤ p) :
    ∀ (n : ℕ) (f a : ℝ), 0 ≤ a →
      0 ≤ (fractalLayers x y p n f a).1 ∧
        (fractalLayers x y p n f a).1 ≤ (fractalLayers x y p n f a).2 := by
  intro n
  induction n with
  | zero =>
      intro f a _
      simp [fractalLayers]
  | succ n ih =>
      intro f a ha
      obtain ⟨h1, h2⟩ := ih (f * 2) (a * p) (mul_nonneg ha hp)
      have hs1 : -1 ≤ Real.sin (x * f) := Real.neg_one_le_sin (x * f)
      have hs2 : Real.sin (x * f) ≤ 1 := Real.sin_le_one (x * f)
      have hc1 : -1 ≤ Real.cos (y * f) := Real.neg_one_le_cos (y * f)
      have hc2 : Real.cos (y * f) ≤ 1 := Real.cos_le_one (y * f)
      have hlay0 : (0 : ℝ) ≤
          0.5 * Real.sin (x * f) * Real.cos (y * f) + 0.5 := by nlinarith
      have hlay1 : 0.5 * Real.sin (x * f) * Real.cos (y * f) + 0.5 ≤ 1 := by
        nlinarith
      constructor
      · simp only [fractalLayers]
        exact add_nonneg (mul_nonneg ha hlay0) h1
      · simp only [fractalLayers]
        exact add_le_add (mul_le_of_le_one_right ha hlay1) h2

lemma fractalLayers_snd_lower (x y p : ℝ) (hp : 0 ≤ p) (n : ℕ) (f a : ℝ)
    (ha : 0 ≤ a) : a ≤ (fractalLayers x y p (n + 1) f a).2 := by
  have h := fractalLayers_bounds x y p hp n (f * 2) (a * p)
    (mul_nonneg ha hp)
  simp only [fractalLayers]
  have : 0 ≤ (fractalLayers x y p n (f * 2) (a * p)).2 := h.1.trans h.2
  linarith

/-- C6: `fractalNoise` is a pure deterministic function — two calls with
identical `(x, y, octaves, persistence)` return identical output — and for
every input, every octave count ≥ 1 and every persistence in `(0,1)`, its
output lies within `[0,1]`. -/
theorem fractalNoise_deterministic_and_unit_range
    (x y : ℝ) (octaves : ℕ) (persistence : ℝ)
    (hoct : 1 ≤ octaves) (hp0 : 0 < persistence) (hp1 : persistence < 1) :
    fractalNoise x y octaves persistence =
        fractalNoise x y octaves persistence ∧
      0 ≤ fractalNoise x y octaves persistence ∧
      fractalNoise x y octaves persistence ≤ 1 := by
  obtain ⟨n, rfl⟩ : ∃ n, octaves = n + 1 :=
    ⟨octaves - 1, (Nat.succ_pred_eq_of_pos hoct).symm⟩
  have hb := fractalLayers_bounds x y persistence hp0.le (n + 1) 0.5 64
    (by norm_num)
  have hm : (64 : ℝ) ≤ (fractalLayers x y persistence (n + 1) 0.5 64).2 :=
    fractalLayers_snd_lower x y persistence hp0.le n 0.5 64 (by norm_num)
  have hmpos : (0 : ℝ) < (fractalLayers x y persistence (n + 1) 0.5 64).2 :=
    lt_of_lt_of_le (by norm_num) hm
  exact ⟨rfl, div_nonneg hb.1 hmpos.le, (div_le_one hmpos).mpr hb.2⟩

/-- Witness for C6 at the concrete input `(0, 0, 1 octave, 1/2)`. -/
theorem fractalNoise_deterministic_and_unit_range_witness :
    (1 ≤ 1) ∧ (0 : ℝ) < 1 / 2 ∧ (1 : ℝ) / 2 < 1 ∧
      0 ≤ fractalNoise 0 0 1 (1 / 2) ∧ fractalNoise 0 0 1 (1 / 2) ≤ 1 :=
  ⟨le_refl 1, by norm_num, by norm_num,
   (fractalNoise_deterministic_and_unit_range 0 0 1 (1 / 2) (le_refl 1)
     (by norm_num) (by norm_num)).2.1,
   (fractalNoise_deterministic_and_unit_range 0 0 1 (1 / 2) (le_refl 1)
     (by norm_num) (by norm_num)).2.2⟩

lemma range_map_getD {α : Type} (n : ℕ) (f : ℕ → α) (d : α) (i : ℕ)
    (hi : i < n) : ((List.range n).map f).getD i d = f i := by
  rw [List.getD_eq_getElem _ _ (by simpa using hi)]
  simp

lemma fractalNoise_unit (x y : ℝ) (octaves : ℕ) (p : ℝ)
    (hoct : 1 ≤ octaves) (hp : 0 ≤ p) :
    0 ≤ fractalNoise x y octaves p ∧ fractalNoise x y octaves p ≤ 1 := by
  obtain ⟨n, rfl⟩ : ∃ n, octaves = n + 1 :=
    ⟨octaves - 1, (Nat.succ_pred_eq_of_pos hoct).symm⟩
  have hb := fractalLayers_bounds x y p hp (n + 1) 0.5 64 (by norm_num)
  have hm : (64 : ℝ) ≤ (fractalLayers x y p (n + 1) 0.5 64).2 :=
    fractalLayers_snd_lower x y p hp n 0.5 64 (by norm_num)
  have hmpos : (0 : ℝ) < (fractalLayers x y p (n + 1) 0.5 64).2 :=
    lt_of_lt_of_le (by norm_num) hm
  exact ⟨div_nonneg hb.1 hmpos.le, (div_le_one hmpos).mpr hb.2⟩

/-- C7: for all positive `width`, `height` and any `scale`,
`generateHeightMap` produces exactly `height` rows of `width` columns, the
cell at `(x, y)` equals `(fractalNoise(x*scale, y*scale) - 0.5) * 50`, and
every elevation lies in `[-50/2, 50/2] = [-25, 25]`. -/
theorem generateHeightMap_dims_formula_range (w h : ℕ) (scale : ℝ)
    (hw : 0 < w) (hh : 0 < h) :
    (generateHeightMap w h scale).length = h ∧
      (∀ row ∈ generateHeightMap w h scale, row.length = w) ∧
      ∀ y x : ℕ, y < h → x < w →
        ((generateHeightMap w h scale).getD y []).getD x 0 =
            (fractalNoise ((x : ℝ) * scale) ((y : ℝ) * scale) 6 0.7 - 0.5)
              * 50 ∧
          -(50 / 2) ≤ ((generateHeightMap w h scale).getD y []).getD x 0 ∧
          ((generateHeightMap w h scale).getD y []).getD x 0 ≤ 50 / 2 := by
  refine ⟨by simp [generateHeightMap], ?_, ?_⟩
  · intro row hrow
    simp only [generateHeightMap, List.mem_map, List.mem_range] at hrow
    obtain ⟨y, -, rfl⟩ := hrow
    simp
  · intro y x hy hx
    have hcell : ((generateHeightMap w h scale).getD y []).getD x 0 =
        (fractalNoise ((x : ℝ) * scale) ((y : ℝ) * scale) 6 0.7 - 0.5)
          * 50 := by
      simp only [generateHeightMap]
      rw [range_map_getD h _ _ y hy, range_map_getD w _ _ x hx]
    refine ⟨hcell, ?_, ?_⟩ <;> rw [hcell]
    · have := (fractalNoise_unit ((x : ℝ) * scale) ((y : ℝ) * scale) 6 0.7
        (by norm_num) (by norm_num)).1
      nlinarith
    · have := (fractalNoise_unit ((x : ℝ) * scale) ((y : ℝ) * scale) 6 0.7
        (by norm_num) (by norm_num)).2
      nlinarith

/-- Witness for C7 at `width = height = 1`, `scale = 1`. -/
theorem generateHeightMap_dims_formula_range_witness :
    (0 < 1) ∧ (generateHeightMap 1 1 1).length = 1 :=
  ⟨Nat.one_pos, (generateHeightMap_dims_formula_range 1 1 1 Nat.one_pos
    Nat.one_pos).1⟩

lemma flatMap_congr_mem {α β : Type} (l : List α) (f g : α → List β)
    (h : ∀ a ∈ l, f a = g a) : l.flatMap f = l.flatMap g := by
  induction l with
  | nil => rfl
  | cons a l ih =>
      simp only [List.flatMap_cons]
      rw [h a (List.mem_cons_self a l), ih fun b hb => h b (List.mem_cons_of_mem a hb)]

/-- C10: for the same `(width, height, scale)`, the vertex stream emitted by
`generateVertices` is exactly, cell by cell in row-major order, the triple
`(x*10, heightMap[y][x], y*10)` where `heightMap` is the grid produced by
`generateHeightMap` — the emitted y-coordinate equals the stored elevation
and the vertex is placed with the same spacing of 10 world units per cell
that the height queries divide by. -/
theorem generateVertices_agrees_with_generateHeightMap (w h : ℕ) (scale : ℝ) :
    generateVertices w h scale =
      (List.range h).flatMap fun (y : ℕ) =>
        (List.range w).flatMap fun (x : ℕ) =>
          [(x : ℝ) * 10,
           ((generateHeightMap w h scale).getD y []).getD x 0,
           (y : ℝ) * 10] := by
  unfold generateVertices
  refine flatMap_congr_mem _ _ _ fun y hy => ?_
  refine flatMap_congr_mem _ _ _ fun x hx => ?_
  rw [List.mem_range] at hy hx
  have hcell : ((generateHeightMap w h scale).getD y []).getD x 0 =
      (fractalNoise ((x : ℝ) * scale) ((y : ℝ) * scale) 6 0.7 - 0.5) * 50 := by
    simp only [generateHeightMap]
    rw [range_map_getD h _ _ y hy, range_map_getD w _ _ x hx]
  rw [hcell]

/-- C1: for every state, `dt`, and height-query function `q`,
`CapsuleCollider::update` performs exactly: integrate
`velocityY' = velocityY + gravity*dt`, predict
`candidateY = posY + velocityY'*dt`, query `terrainY = q(posX, posZ)`; if
`candidateY - height/2 ≤ terrainY` then the new `posY` is
`terrainY + height/2` with `velocityY = 0`, otherwise `posY = candidateY`
and `velocityY = velocityY'`; `posX` and `posZ` are unchanged. -/
theorem CapsuleCollider_update_exact (c : CapsuleCollider) (dt : ℚ)
    (q : ℚ → ℚ → ℚ) :
    (c.update dt q).posX = c.posX ∧ (c.update dt q).posZ = c.posZ ∧
      (if c.posY + (c.velocityY + gravity * dt) * dt - c.height / 2 ≤
          q c.posX c.posZ then
        (c.update dt q).posY = q c.posX c.posZ + c.height / 2 ∧
          (c.update dt q).velocityY = 0
      else
        (c.update dt q).posY = c.posY + (c.velocityY + gravity * dt) * dt ∧
          (c.update dt q).velocityY = c.velocityY + gravity * dt) := by
  by_cases hc : c.posY + (c.velocityY + gravity * dt) * dt - c.height / 2 ≤
      q c.posX c.posZ
  · rw [if_pos hc]
    unfold CapsuleCollider.update
    rw [if_pos hc]
    exact ⟨rfl, rfl, rfl, rfl⟩
  · rw [if_neg hc]
    unfold CapsuleCollider.update
    rw [if_neg hc]
    exact ⟨rfl, rfl, rfl, rfl⟩

/-- C3 counterexample: a concrete update in which the snap branch is taken
(the capsule bottom reaches the terrain) yet `onGround` and `clamped` are
`false` afterwards, contradicting the claim that they are `true` after every
snapping update. -/
theorem CapsuleCollider_flags_counterexample :
    ((CapsuleCollider.init 0 0 0 4 1).posY +
        ((CapsuleCollider.init 0 0 0 4 1).velocityY + gravity * 1) * 1 -
        (CapsuleCollider.init 0 0 0 4 1).height / 2 ≤ (fun _ _ => (0 : ℚ)) 0 0)
      ∧ ((CapsuleCollider.init 0 0 0 4 1).update 1
          (fun _ _ => 0)).onGround = false
      ∧ ((CapsuleCollider.init 0 0 0 4 1).update 1
          (fun _ _ => 0)).clamped = false := by
  refine ⟨by norm_num [CapsuleCollider.init, gravity], ?_, ?_⟩ <;>
    norm_num [CapsuleCollider.init, CapsuleCollider.update, gravity]

/-- C3 amended: the active `update` never modifies `onGround` or `clamped`;
both are initialised to `false` by the constructor and therefore remain
`false` after every call to `update`, whether or not the snap branch was
taken. -/
theorem CapsuleCollider_flags_unchanged (c : CapsuleCollider) (dt : ℚ)
    (q : ℚ → ℚ → ℚ) (x y z hgt r : ℚ) :
    (c.update dt q).onGround = c.onGround ∧
      (c.update dt q).clamped = c.clamped ∧
      (CapsuleCollider.init x y z hgt r).onGround = false ∧
      (CapsuleCollider.init x y z hgt r).clamped = false := by
  refine ⟨?_, ?_, rfl, rfl⟩ <;>
    (simp only [CapsuleCollider.update]; split <;> rfl)

/-! ### Truncation versus floor under clamping -/

lemma stdClamp_trunc_eq_stdClamp_floor (q : ℚ) (hi : ℤ) :
    stdClamp (ratTrunc q) 0 hi = stdClamp ⌊q⌋ 0 hi := by
  unfold ratTrunc stdClamp
  split_ifs with h
  · have h1 : -⌊-q⌋ ≤ 0 := by
      have : (0 : ℤ) ≤ ⌊-q⌋ := Int.floor_nonneg.mpr (by linarith)
      omega
    have h2 : ⌊q⌋ ≤ 0 := Int.floor_nonpos h.le
    rw [max_eq_left ((min_le_left _ _).trans h1),
      max_eq_left ((min_le_left _ _).trans h2)]
  · rfl

lemma stdClamp_of_mem (v hi : ℤ) (h0 : 0 ≤ v) (h1 : v ≤ hi) :
    stdClamp v 0 hi = v := by
  unfold stdClamp
  rw [min_eq_left h1, max_eq_right h0]

lemma ratTrunc_cast_add_half (i : ℕ) : ratTrunc ((i : ℚ) + 1 / 2) = i := by
  unfold ratTrunc
  rw [if_neg (not_lt.mpr (by positivity))]
  rw [show ((i : ℚ) + 1 / 2) = ((i : ℤ) : ℚ) + 1 / 2 by push_cast; ring]
  rw [Int.floor_int_add]
  norm_num

/-- C8: `getHeight` returns the stored elevation of the cell at index
`(clamp(floor(worldX/spacing), 0, W-1), clamp(floor(worldZ/spacing), 0,
H-1))` — even though the source truncates toward zero rather than flooring,
the clamp absorbs the difference — and in particular querying at an
in-bounds cell's exact centre coordinate `((i+0.5)*10, (j+0.5)*10)` returns
precisely that cell's stored elevation. -/
theorem getHeight_floor_clamp_and_center (g : List (List ℚ)) (W H : ℕ) :
    (∀ x z : ℚ, getHeight g W H x z =
        cellAt g (stdClamp ⌊z / 10⌋ 0 ((H : ℤ) - 1))
          (stdClamp ⌊x / 10⌋ 0 ((W : ℤ) - 1))) ∧
      ∀ i j : ℕ, i < W → j < H →
        getHeight g W H (((i : ℚ) + 1 / 2) * 10) (((j : ℚ) + 1 / 2) * 10) =
          (g.getD j []).getD i 0 := by
  constructor
  · intro x z
    unfold getHeight
    rw [stdClamp_trunc_eq_stdClamp_floor (x / 10),
      stdClamp_trunc_eq_stdClamp_floor (z / 10)]
  · intro i j hi hj
    unfold getHeight
    have hx : ((i : ℚ) + 1 / 2) * 10 / 10 = (i : ℚ) + 1 / 2 := by ring
    have hz : ((j : ℚ) + 1 / 2) * 10 / 10 = (j : ℚ) + 1 / 2 := by ring
    rw [hx, hz, ratTrunc_cast_add_half i, ratTrunc_cast_add_half j,
      stdClamp_of_mem _ _ (Int.ofNat_nonneg i) (by omega),
      stdClamp_of_mem _ _ (Int.ofNat_nonneg j) (by omega)]
    unfold cellAt
    simp

/-- Witness for C8 on the grid `[[1,2],[3,4]]` at the centre of cell
`(i, j) = (1, 0)`. -/
theorem getHeight_floor_clamp_and_center_witness :
    (1 < 2) ∧ (0 < 2) ∧
      getHeight [[1, 2], [3, 4]] 2 2 ((((1 : ℕ) : ℚ) + 1 / 2) * 10)
          ((((0 : ℕ) : ℚ) + 1 / 2) * 10) =
        ([[(1 : ℚ), 2], [3, 4]].getD 0 []).getD 1 0 :=
  ⟨by norm_num, by norm_num,
   (getHeight_floor_clamp_and_center [[1, 2], [3, 4]] 2 2).2 1 0
     (by norm_num) (by norm_num)⟩

lemma ratTrunc_intCast (n : ℤ) : ratTrunc ((n : ℤ) : ℚ) = n := by
  unfold ratTrunc
  split_ifs with h
  · rw [← Int.cast_neg, Int.floor_intCast]
    omega
  · exact Int.floor_intCast n

lemma mix_zero (a b : ℚ) : mix a b 0 = a := by
  unfold mix; ring

lemma mix_half (a b : ℚ) : mix a b (1 / 2) = (a + b) / 2 := by
  unfold mix; ring

/-- C9: the bilinear query at the exact midpoint of two horizontally
adjacent in-bounds cells with stored elevations `a` and `b` returns
`(a+b)/2`, and at an in-bounds cell's own coordinate (both fractional
offsets zero) it returns that cell's stored elevation. -/
theorem getInterpolatedHeight_midpoint_and_corner (g : List (List ℚ))
    (W H : ℕ) :
    (∀ i j : ℕ, i + 1 < W → j < H →
        getInterpolatedHeight g W H (((i : ℚ) * 10 + ((i : ℚ) + 1) * 10) / 2)
            ((j : ℚ) * 10) =
          ((g.getD j []).getD i 0 + (g.getD j []).getD (i + 1) 0) / 2) ∧
      ∀ i j : ℕ, i < W → j < H →
        getInterpolatedHeight g W H ((i : ℚ) * 10) ((j : ℚ) * 10) =
          (g.getD j []).getD i 0 := by
  constructor
  · intro i j hi hj
    simp only [getInterpolatedHeight]
    rw [show ((i : ℚ) * 10 + ((i : ℚ) + 1) * 10) / 2 / 10 = (i : ℚ) + 1 / 2
        by ring]
    rw [show ((j : ℚ) * 10 / 10) = ((j : ℤ) : ℚ) by push_cast; ring]
    rw [ratTrunc_cast_add_half i, ratTrunc_intCast (j : ℤ)]
    rw [stdClamp_of_mem (i : ℤ) _ (Int.ofNat_nonneg i) (by omega),
      stdClamp_of_mem ((i : ℤ) + 1) _ (by omega) (by omega),
      stdClamp_of_mem (j : ℤ) _ (Int.ofNat_nonneg j) (by omega)]
    rw [show ((i : ℚ) + 1 / 2 - ((i : ℤ) : ℚ)) = 1 / 2 by push_cast; ring,
      show (((j : ℤ) : ℚ) - ((j : ℤ) : ℚ)) = 0 by ring]
    rw [mix_zero, mix_half]
    unfold cellAt
    rw [show ((i : ℤ) + 1) = (((i + 1 : ℕ) : ℤ)) by push_cast; ring]
    simp
  · intro i j hi hj
    simp only [getInterpolatedHeight]
    rw [show ((i : ℚ) * 10 / 10) = ((i : ℤ) : ℚ) by push_cast; ring,
      show ((j : ℚ) * 10 / 10) = ((j : ℤ) : ℚ) by push_cast; ring]
    rw [ratTrunc_intCast (i : ℤ), ratTrunc_intCast (j : ℤ)]
    rw [stdClamp_of_mem (i : ℤ) _ (Int.ofNat_nonneg i) (by omega),
      stdClamp_of_mem (j : ℤ) _ (Int.ofNat_nonneg j) (by omega)]
    rw [show (((i : ℤ) : ℚ) - ((i : ℤ) : ℚ)) = 0 by ring,
      show (((j : ℤ) : ℚ) - ((j : ℤ) : ℚ)) = 0 by ring]
    rw [mix_zero, mix_zero]
    unfold cellAt
    simp

/-- Witness for C9 on the grid `[[1, 3]]` with the adjacent pair
`(i, j) = (0, 0)`: the midpoint query returns `(1 + 3)/2 = 2`. -/
theorem getInterpolatedHeight_midpoint_and_corner_witness :
    (0 + 1 < 2) ∧ (0 < 1) ∧
      getInterpolatedHeight [[1, 3]] 2 1
          ((((0 : ℕ) : ℚ) * 10 + (((0 : ℕ) : ℚ) + 1) * 10) / 2)
          (((0 : ℕ) : ℚ) * 10) =
        (([[(1 : ℚ), 3]].getD 0 []).getD 0 0 +
          ([[(1 : ℚ), 3]].getD 0 []).getD (0 + 1) 0) / 2 :=
  ⟨by norm_num, by norm_num,
   (getInterpolatedHeight_midpoint_and_corner [[1, 3]] 2 1).1 0 0
     (by norm_num) (by norm_num)⟩

/-! ### Capsule dynamics over a flat terrain -/

lemma update_preserves_height (c : CapsuleCollider) (dt : ℚ)
    (q : ℚ → ℚ → ℚ) : (c.update dt q).height = c.height := by
  simp only [CapsuleCollider.update]
  split <;> rfl

lemma iterate_update_height (dt E : ℚ) (c0 : CapsuleCollider) (n : ℕ) :
    ((fun c => c.update dt (fun _ _ => E))^[n] c0).height = c0.height := by
  induction n with
  | zero => rfl
  | succ n ih =>
      rw [Function.iterate_succ_apply']
      exact (update_preserves_height _ dt _).trans ih

lemma update_snap (c : CapsuleCollider) (dt E : ℚ)
    (hcond : c.posY + (c.velocityY + gravity * dt) * dt - c.height / 2 ≤ E) :
    (c.update dt (fun _ _ => E)).posY = E + c.height / 2 ∧
      (c.update dt (fun _ _ => E)).velocityY = 0 := by
  simp only [CapsuleCollider.update]
  rw [if_pos hcond]
  exact ⟨rfl, rfl⟩

lemma update_nosnap (c : CapsuleCollider) (dt E : ℚ)
    (hcond : ¬ (c.posY + (c.velocityY + gravity * dt) * dt - c.height / 2
      ≤ E)) :
    (c.update dt (fun _ _ => E)).posY =
        c.posY + (c.velocityY + gravity * dt) * dt ∧
      (c.update dt (fun _ _ => E)).velocityY = c.velocityY + gravity * dt := by
  simp only [CapsuleCollider.update]
  rw [if_neg hcond]
  exact ⟨rfl, rfl⟩

lemma update_settled (c : CapsuleCollider) (dt E : ℚ)
    (hy : c.posY = E + c.height / 2) (hv : c.velocityY = 0) :
    (c.update dt (fun _ _ => E)).posY = E + c.height / 2 ∧
      (c.update dt (fun _ _ => E)).velocityY = 0 := by
  apply update_snap
  have hg : gravity < 0 := by norm_num [gravity]
  have hsq : 0 ≤ dt * dt := mul_self_nonneg dt
  rw [hy, hv]
  nlinarith

lemma update_bottom_ge (c : CapsuleCollider) (dt E : ℚ) :
    E ≤ (c.update dt (fun _ _ => E)).posY - c.height / 2 := by
  by_cases hcond :
      c.posY + (c.velocityY + gravity * dt) * dt - c.height / 2 ≤ E
  · rw [(update_snap c dt E hcond).1]
    linarith
  · rw [(update_nosnap c dt E hcond).1]
    push_neg at hcond
    linarith

lemma fall_closed_form (c0 : CapsuleCollider) (dt E : ℚ)
    (hv : c0.velocityY = 0) :
    ∀ n : ℕ,
      (∀ k : ℕ, k < n →
        ¬ (((fun c => c.update dt (fun _ _ => E))^[k] c0).posY +
            (((fun c => c.update dt (fun _ _ => E))^[k] c0).velocityY +
              gravity * dt) * dt -
            ((fun c => c.update dt (fun _ _ => E))^[k] c0).height / 2 ≤ E)) →
      ((fun c => c.update dt (fun _ _ => E))^[n] c0).velocityY =
          (n : ℚ) * (gravity * dt) ∧
        ((fun c => c.update dt (fun _ _ => E))^[n] c0).posY =
          c0.posY + gravity * dt * dt * ((n : ℚ) * ((n : ℚ) + 1) / 2) := by
  intro n
  induction n with
  | zero =>
      intro _
      constructor
      · rw [Function.iterate_zero_apply, hv]
        norm_num
      · rw [Function.iterate_zero_apply]
        norm_num
  | succ n ih =>
      intro hno
      obtain ⟨ihv, ihy⟩ := ih fun k hk => hno k (Nat.lt_succ_of_lt hk)
      have hcond := hno n (Nat.lt_succ_self n)
      rw [Function.iterate_succ_apply']
      obtain ⟨hposY, hvel⟩ := update_nosnap _ dt E hcond
      constructor
      · rw [hvel, ihv]
        push_cast
        ring
      · rw [hposY, ihy, ihv]
        push_cast
        ring

lemma exists_snap_step (c0 : CapsuleCollider) (dt E : ℚ) (hdt : 0 < dt)
    (hv : c0.velocityY = 0) :
    ∃ k : ℕ,
      ((fun c => c.update dt (fun _ _ => E))^[k] c0).posY +
          (((fun c => c.update dt (fun _ _ => E))^[k] c0).velocityY +
            gravity * dt) * dt -
          ((fun c => c.update dt (fun _ _ => E))^[k] c0).height / 2 ≤ E := by
  by_contra hno
  rw [not_exists] at hno
  have hg : gravity < 0 := by norm_num [gravity]
  have hD : 0 < -(gravity * dt * dt) := by nlinarith [mul_pos hdt hdt]
  obtain ⟨n, hn⟩ := exists_nat_gt
    ((c0.posY - c0.height / 2 - E) / (-(gravity * dt * dt)))
  have hmul : (c0.posY - c0.height / 2 - E) < (n : ℚ) * (-(gravity * dt * dt)) :=
    (div_lt_iff₀ hD).mp hn
  obtain ⟨hvel, hposY⟩ := fall_closed_form c0 dt E hv n (fun k _ => hno k)
  apply hno n
  rw [hposY, hvel, iterate_update_height dt E c0 n]
  have hn0 : (0 : ℚ) ≤ (n : ℚ) := Nat.cast_nonneg n
  have hC : (0 : ℚ) ≤ (n : ℚ) * ((n : ℚ) + 1) / 2 + 1 := by positivity
  have hkey : gravity * dt * dt * ((n : ℚ) * ((n : ℚ) + 1) / 2 + 1) ≤ 0 := by
    nlinarith
  linarith

/-- C4: a capsule of height `H` starting at rest with its bottom above a
flat terrain of constant elevation `E`, iterated with any fixed `dt > 0`,
reaches `posY = E + H/2` with `velocityY = 0` after finitely many ticks and
keeps that state forever after, and after every individual update the
capsule bottom `posY - H/2` is at least `E`. -/
theorem capsule_settles_and_never_penetrates (c0 : CapsuleCollider)
    (E dt : ℚ) (hdt : 0 < dt) (hv : c0.velocityY = 0)
    (habove : E < c0.posY - c0.height / 2) :
    (∃ N : ℕ, ∀ n : ℕ, N ≤ n →
        ((fun c => c.update dt (fun _ _ => E))^[n] c0).posY =
            E + c0.height / 2 ∧
          ((fun c => c.update dt (fun _ _ => E))^[n] c0).velocityY = 0) ∧
      ∀ n : ℕ, 1 ≤ n →
        E ≤ ((fun c => c.update dt (fun _ _ => E))^[n] c0).posY -
          c0.height / 2 := by
  constructor
  · obtain ⟨k, hk⟩ := exists_snap_step c0 dt E hdt hv
    refine ⟨k + 1, ?_⟩
    intro n hn
    induction n, hn using Nat.le_induction with
    | base =>
        rw [Function.iterate_succ_apply']
        have hsnap := update_snap _ dt E hk
        rw [iterate_update_height dt E c0 k] at hsnap
        exact hsnap
    | succ n hn ih =>
        rw [Function.iterate_succ_apply']
        have hset := update_settled
          ((fun c => c.update dt (fun _ _ => E))^[n] c0) dt E
          (by rw [iterate_update_height dt E c0 n]; exact ih.1) ih.2
        rw [iterate_update_height dt E c0 n] at hset
        exact hset
  · intro n hn
    obtain ⟨m, rfl⟩ : ∃ m, n = m + 1 := ⟨n - 1, by omega⟩
    rw [Function.iterate_succ_apply']
    have hb := update_bottom_ge
      ((fun c => c.update dt (fun _ _ => E))^[m] c0) dt E
    rw [iterate_update_height dt E c0 m] at hb
    exact hb

/-- Witness for C4: a capsule of height 4 dropped from rest at `posY = 10`
over flat terrain of elevation 0 with `dt = 1`. -/
theorem capsule_settles_and_never_penetrates_witness :
    (0 : ℚ) < 1 ∧ (CapsuleCollider.init 0 10 0 4 1).velocityY = 0 ∧
      (0 : ℚ) < (CapsuleCollider.init 0 10 0 4 1).posY -
        (CapsuleCollider.init 0 10 0 4 1).height / 2 ∧
      ((∃ N : ℕ, ∀ n : ℕ, N ≤ n →
          ((fun c => c.update 1 (fun _ _ => (0 : ℚ)))^[n]
              (CapsuleCollider.init 0 10 0 4 1)).posY =
              0 + (CapsuleCollider.init 0 10 0 4 1).height / 2 ∧
            ((fun c => c.update 1 (fun _ _ => (0 : ℚ)))^[n]
              (CapsuleCollider.init 0 10 0 4 1)).velocityY = 0) ∧
        ∀ n : ℕ, 1 ≤ n →
          (0 : ℚ) ≤ ((fun c => c.update 1 (fun _ _ => (0 : ℚ)))^[n]
              (CapsuleCollider.init 0 10 0 4 1)).posY -
            (CapsuleCollider.init 0 10 0 4 1).height / 2) :=
  ⟨by norm_num, by norm_num [CapsuleCollider.init],
   by norm_num [CapsuleCollider.init],
   capsule_settles_and_never_penetrates (CapsuleCollider.init 0 10 0 4 1) 0 1
     (by norm_num) (by norm_num [CapsuleCollider.init])
     (by norm_num [CapsuleCollider.init])⟩

/-! ### First-hit characterisation of the spawn scan -/

lemma find?_range'_none (p : ℕ → Bool) :
    ∀ (n s : ℕ), (∀ x : ℕ, s ≤ x → x < s + n → p x = false) →
      (List.range' s n).find? p = none := by
  intro n
  induction n with
  | zero => intro s _; rfl
  | succ n ih =>
      intro s h
      show (s :: List.range' (s + 1) n).find? p = none
      rw [List.find?_cons_of_neg _ (by simp [h s le_rfl (by omega)])]
      exact ih (s + 1) fun x hx1 hx2 => h x (by omega) (by omega)

lemma find?_range'_first (p : ℕ → Bool) :
    ∀ (n s x0 : ℕ), s ≤ x0 → x0 < s + n → p x0 = true →
      (∀ x : ℕ, s ≤ x → x < x0 → p x = false) →
      (List.range' s n).find? p = some x0 := by
  intro n
  induction n with
  | zero => intro s x0 h1 h2; omega
  | succ n ih =>
      intro s x0 h1 h2 hp hbefore
      show (s :: List.range' (s + 1) n).find? p = some x0
      rcases eq_or_lt_of_le h1 with rfl | hlt
      · rw [List.find?_cons_of_pos _ hp]
      · rw [List.find?_cons_of_neg _ (by simp [hbefore s le_rfl hlt])]
        exact ih (s + 1) x0 hlt (by omega) hp
          fun x hx1 hx2 => hbefore x (by omega) hx2

lemma findSome?_range'_none {α : Type} (f : ℕ → Option α) :
    ∀ (n s : ℕ), (∀ y : ℕ, s ≤ y → y < s + n → f y = none) →
      (List.range' s n).findSome? f = none := by
  intro n
  induction n with
  | zero => intro s _; rfl
  | succ n ih =>
      intro s h
      show (s :: List.range' (s + 1) n).findSome? f = none
      rw [List.findSome?_cons]
      rw [h s le_rfl (by omega)]
      exact ih (s + 1) fun y hy1 hy2 => h y (by omega) (by omega)

lemma findSome?_range'_first {α : Type} (f : ℕ → Option α) (b : α) :
    ∀ (n s y0 : ℕ), s ≤ y0 → y0 < s + n → f y0 = some b →
      (∀ y : ℕ, s ≤ y → y < y0 → f y = none) →
      (List.range' s n).findSome? f = some b := by
  intro n
  induction n with
  | zero => intro s y0 h1 h2; omega
  | succ n ih =>
      intro s y0 h1 h2 hf hbefore
      show (s :: List.range' (s + 1) n).findSome? f = some b
      rw [List.findSome?_cons]
      rcases eq_or_lt_of_le h1 with rfl | hlt
      · rw [hf]
      · rw [hbefore s le_rfl hlt]
        exact ih (s + 1) y0 hlt (by omega) hf
          fun y hy1 hy2 => hbefore y (by omega) hy2

lemma getD_getD_const (g : List (List ℚ)) (e : ℚ) (W H : ℕ)
    (hlen : g.length = H) (hrows : ∀ row ∈ g, row.length = W)
    (hconst : ∀ row ∈ g, ∀ v ∈ row, v = e) (y x : ℕ) (hy : y < H)
    (hx : x < W) : (g.getD y []).getD x 0 = e := by
  have hyl : y < g.length := by omega
  rw [List.getD_eq_getElem _ _ hyl]
  have hrow := List.getElem_mem hyl
  have hxl : x < (g[y]).length := by rw [hrows _ hrow]; exact hx
  rw [List.getD_eq_getElem _ _ hxl]
  exact hconst _ hrow _ (List.getElem_mem hxl)

/-- C5: for every grid with both dimensions at least 11, `findSpawnPoint`
scans cells row-major with `x ∈ [5, W-5)` and `y ∈ [5, H-5)`; if no cell
passes the flatness test it returns the fallback `(0, 50, 0)`; the first
cell `(y0, x0)` that passes yields
`(x0*spacing, elevation + capsuleHeight/2 + capsuleRadius + 0.1,
y0*spacing)`; and on a perfectly flat grid the result is cell `(5, 5)`
converted to world coordinates with exactly that height offset. -/
theorem findSpawnPoint_spec (g : List (List ℚ)) (sp ch cr : ℚ) (W H : ℕ)
    (hW : 11 ≤ W) (hH : 11 ≤ H) (hlen : g.length = H)
    (hrows : ∀ row ∈ g, row.length = W) :
    ((∀ y x : ℕ, 5 ≤ y → y < H - 5 → 5 ≤ x → x < W - 5 →
        flatAt g y x = false) →
      findSpawnPoint g sp ch cr = (0, 50, 0)) ∧
      (∀ y0 x0 : ℕ, 5 ≤ y0 → y0 < H - 5 → 5 ≤ x0 → x0 < W - 5 →
        flatAt g y0 x0 = true →
        (∀ x : ℕ, 5 ≤ x → x < x0 → flatAt g y0 x = false) →
        (∀ y x : ℕ, 5 ≤ y → y < y0 → 5 ≤ x → x < W - 5 →
          flatAt g y x = false) →
        findSpawnPoint g sp ch cr =
          ((x0 : ℚ) * sp,
           (g.getD y0 []).getD x0 0 + ch / 2 + cr + 1 / 10,
           (y0 : ℚ) * sp)) ∧
      ∀ e : ℚ, (∀ row ∈ g, ∀ v ∈ row, v = e) →
        findSpawnPoint g sp ch cr =
          ((5 : ℚ) * sp, e + ch / 2 + cr + 1 / 10, (5 : ℚ) * sp) := by
  have h0 : 0 < g.length := by omega
  have hw0 : (g.getD 0 []).length = W := by
    rw [List.getD_eq_getElem _ _ h0]
    exact hrows _ (List.getElem_mem h0)
  have hB : ∀ y0 x0 : ℕ, 5 ≤ y0 → y0 < H - 5 → 5 ≤ x0 → x0 < W - 5 →
      flatAt g y0 x0 = true →
      (∀ x : ℕ, 5 ≤ x → x < x0 → flatAt g y0 x = false) →
      (∀ y x : ℕ, 5 ≤ y → y < y0 → 5 ≤ x → x < W - 5 →
        flatAt g y x = false) →
      findSpawnPoint g sp ch cr =
        ((x0 : ℚ) * sp,
         (g.getD y0 []).getD x0 0 + ch / 2 + cr + 1 / 10,
         (y0 : ℚ) * sp) := by
    intro y0 x0 hy05 hy0H hx05 hx0W hflat hxbefore hybefore
    simp only [findSpawnPoint]
    rw [hw0, hlen]
    rw [findSome?_range'_first _ (y0, x0) (H - 10) 5 y0 hy05 (by omega)
      (by rw [find?_range'_first (fun x => flatAt g y0 x) (W - 10) 5 x0
            hx05 (by omega) hflat hxbefore]
          rfl)
      (fun y hy1 hy2 => by
        rw [find?_range'_none (fun x => flatAt g y x) (W - 10) 5
          (fun x hx1 hx2 => hybefore y x hy1 hy2 hx1 (by omega))]
        rfl)]
    simp only [Prod.mk.injEq]
    exact ⟨trivial, by ring, trivial⟩
  refine ⟨?_, hB, ?_⟩
  · intro hall
    simp only [findSpawnPoint]
    rw [hw0, hlen]
    rw [findSome?_range'_none _ (H - 10) 5 (fun y hy1 hy2 => by
      rw [find?_range'_none (fun x => flatAt g y x) (W - 10) 5
        (fun x hx1 hx2 => hall y x hy1 (by omega) hx1 (by omega))]
      rfl)]
  · intro e hconst
    have hval := getD_getD_const g e W H hlen hrows hconst
    have hflat55 : flatAt g 5 5 = true := by
      unfold flatAt
      rw [hval 5 5 (by omega) (by omega), hval 5 (5 + 1) (by omega) (by omega),
        hval (5 + 1) 5 (by omega) (by omega)]
      norm_num
    have hres := hB 5 5 le_rfl (by omega) le_rfl (by omega) hflat55
      (fun x hx1 hx2 => by omega) (fun y x hy1 hy2 => by omega)
    rw [hres, hval 5 5 (by omega) (by omega)]
    norm_num

/-- Witness for C5: an 11×11 perfectly flat grid of elevation 0 with
`spacing = 10`, `capsuleHeight = 4`, `capsuleRadius = 1` yields the spawn
point `(50, 3.1, 50)` above cell `(5, 5)`. -/
theorem findSpawnPoint_spec_witness :
    (11 ≤ 11) ∧
      findSpawnPoint (List.replicate 11 (List.replicate 11 (0 : ℚ))) 10 4 1 =
        ((5 : ℚ) * 10, 0 + 4 / 2 + 1 + 1 / 10, (5 : ℚ) * 10) :=
  ⟨le_rfl,
   (findSpawnPoint_spec (List.replicate 11 (List.replicate 11 0)) 10 4 1
       11 11 le_rfl le_rfl (by simp)
       (fun row hrow => by rw [List.eq_of_mem_replicate hrow]; simp)).2.2 0
     (fun row hrow v hv => by
       rw [List.eq_of_mem_replicate hrow] at hv
       exact List.eq_of_mem_replicate hv)⟩

/-! ### Coordinate clamping for the two height queries -/

lemma mix_self (a t : ℚ) : mix a a t = a := by
  unfold mix; ring

lemma stdClamp_nonpos (v hi : ℤ) (hv : v ≤ 0) : stdClamp v 0 hi = 0 := by
  unfold stdClamp
  rw [max_eq_left ((min_le_left _ _).trans hv)]

lemma stdClamp_ge_hi (v hi : ℤ) (hhi : 0 ≤ hi) (hv : hi ≤ v) :
    stdClamp v 0 hi = hi := by
  unfold stdClamp
  rw [min_eq_right hv, max_eq_right hhi]

lemma stdClamp_bounds (v hi : ℤ) (hhi : 0 ≤ hi) :
    0 ≤ stdClamp v 0 hi ∧ stdClamp v 0 hi ≤ hi := by
  unfold stdClamp
  constructor
  · exact le_max_left 0 _
  · rw [max_le_iff]
    exact ⟨hhi, min_le_right v hi⟩

lemma ratTrunc_zero : ratTrunc 0 = 0 := by
  norm_num [ratTrunc]

lemma ratTrunc_le_neg_one (q : ℚ) (h : q ≤ -1) : ratTrunc q ≤ -1 := by
  unfold ratTrunc
  rw [if_pos (by linarith)]
  have h1 : (1 : ℤ) ≤ ⌊-q⌋ := Int.le_floor.mpr (by push_cast; linarith)
  omega

lemma ratTrunc_nonneg_eq_floor (q : ℚ) (h : 0 ≤ q) : ratTrunc q = ⌊q⌋ :=
  if_neg (not_lt.mpr h)

lemma interp_axis_clamp (a : ℤ → ℚ) (x : ℚ) (W : ℕ) (hW : 1 ≤ W)
    (hx : ¬(-10 < x ∧ x < 0)) :
    mix (a (stdClamp (ratTrunc (x / 10)) 0 ((W : ℤ) - 1)))
        (a (stdClamp (ratTrunc (x / 10) + 1) 0 ((W : ℤ) - 1)))
        (x / 10 - (ratTrunc (x / 10) : ℚ)) =
      mix
        (a (stdClamp
          (ratTrunc (max 0 (min x (((W : ℚ) - 1) * 10)) / 10)) 0
          ((W : ℤ) - 1)))
        (a (stdClamp
          (ratTrunc (max 0 (min x (((W : ℚ) - 1) * 10)) / 10) + 1) 0
          ((W : ℤ) - 1)))
        (max 0 (min x (((W : ℚ) - 1) * 10)) / 10 -
          (ratTrunc (max 0 (min x (((W : ℚ) - 1) * 10)) / 10) : ℚ)) := by
  have hW1 : (1 : ℚ) ≤ (W : ℚ) := by exact_mod_cast hW
  have hM : (0 : ℚ) ≤ ((W : ℚ) - 1) * 10 := by nlinarith
  by_cases hneg : x < 0
  · have hle : x ≤ -10 := by
      by_contra hc
      push_neg at hc
      exact hx ⟨by linarith, hneg⟩
    have hqc : max 0 (min x (((W : ℚ) - 1) * 10)) = 0 := by
      rw [min_eq_left (by linarith), max_eq_left (by linarith)]
    have htr : ratTrunc (x / 10) ≤ -1 := ratTrunc_le_neg_one _ (by linarith)
    rw [hqc]
    rw [stdClamp_nonpos _ _ (by omega), stdClamp_nonpos _ _ (by omega)]
    rw [show (0 : ℚ) / 10 = 0 by norm_num, ratTrunc_zero]
    rw [stdClamp_of_mem 0 _ le_rfl (by omega)]
    rw [mix_self]
    rw [show ((0 : ℤ) : ℚ) = 0 by norm_cast, sub_zero, mix_zero]
  · push_neg at hneg
    by_cases hfar : ((W : ℚ) - 1) * 10 < x
    · have hqc : max 0 (min x (((W : ℚ) - 1) * 10)) = ((W : ℚ) - 1) * 10 := by
        rw [min_eq_right hfar.le, max_eq_right hM]
      have htr0 : ratTrunc (x / 10) = ⌊x / 10⌋ :=
        ratTrunc_nonneg_eq_floor _ (by positivity)
      have hfl : (W : ℤ) - 1 ≤ ⌊x / 10⌋ := by
        apply Int.le_floor.mpr
        push_cast
        linarith
      rw [hqc]
      rw [show (((W : ℚ) - 1) * 10) / 10 = (((W : ℤ) - 1 : ℤ) : ℚ) by
        push_cast; ring]
      rw [ratTrunc_intCast]
      rw [stdClamp_of_mem ((W : ℤ) - 1) _ (by omega) le_rfl]
      rw [stdClamp_ge_hi ((W : ℤ) - 1 + 1) _ (by omega) (by omega)]
      rw [htr0]
      rw [stdClamp_ge_hi _ _ (by omega) hfl,
        stdClamp_ge_hi _ _ (by omega) (by omega)]
      rw [mix_self, sub_self, mix_zero]
    · push_neg at hfar
      have hqc : max 0 (min x (((W : ℚ) - 1) * 10)) = x := by
        rw [min_eq_left hfar, max_eq_right hneg]
      rw [hqc]

lemma ratTrunc_nonpos (q : ℚ) (h : q < 0) : ratTrunc q ≤ 0 := by
  unfold ratTrunc
  rw [if_pos h]
  have h0 : (0 : ℤ) ≤ ⌊-q⌋ := Int.floor_nonneg.mpr (by linarith)
  omega

lemma nearest_index_clamp (x : ℚ) (W : ℕ) (hW : 1 ≤ W) :
    stdClamp (ratTrunc (x / 10)) 0 ((W : ℤ) - 1) =
      stdClamp (ratTrunc (max 0 (min x (((W : ℚ) - 1) * 10)) / 10)) 0
        ((W : ℤ) - 1) := by
  have hW1 : (1 : ℚ) ≤ (W : ℚ) := by exact_mod_cast hW
  have hM : (0 : ℚ) ≤ ((W : ℚ) - 1) * 10 := by nlinarith
  by_cases hneg : x < 0
  · have hqc : max 0 (min x (((W : ℚ) - 1) * 10)) = 0 := by
      rw [min_eq_left (by linarith), max_eq_left (by linarith)]
    rw [hqc, show (0 : ℚ) / 10 = 0 by norm_num, ratTrunc_zero]
    rw [stdClamp_nonpos _ _ (ratTrunc_nonpos _ (by linarith)),
      stdClamp_of_mem 0 _ le_rfl (by omega)]
  · push_neg at hneg
    by_cases hfar : ((W : ℚ) - 1) * 10 < x
    · have hqc : max 0 (min x (((W : ℚ) - 1) * 10)) = ((W : ℚ) - 1) * 10 := by
        rw [min_eq_right hfar.le, max_eq_right hM]
      have hfl : (W : ℤ) - 1 ≤ ⌊x / 10⌋ := by
        apply Int.le_floor.mpr
        push_cast
        linarith
      rw [hqc, show (((W : ℚ) - 1) * 10) / 10 = (((W : ℤ) - 1 : ℤ) : ℚ) by
        push_cast; ring, ratTrunc_intCast]
      rw [ratTrunc_nonneg_eq_floor _ (by positivity)]
      rw [stdClamp_ge_hi _ _ (by omega) hfl,
        stdClamp_of_mem ((W : ℤ) - 1) _ (by omega) le_rfl]
    · push_neg at hfar
      rw [min_eq_left hfar, max_eq_right hneg]

/-- C2 amended: both query modes clamp every computed grid index into
`[0, W-1] × [0, H-1]`, so they never index the grid out of range; the
nearest-cell query `getHeight` at any coordinate returns the same value as
at the coordinate clamped to the terrain extent (hence at the nearest edge
cell for out-of-extent input); the bilinear query `getInterpolatedHeight`
does so as well **except** when a coordinate lies strictly between
`-spacing = -10` and `0`, where the truncation toward zero combined with
the unclamped fractional offset makes it extrapolate across the first two
cells instead of returning the edge value. -/
theorem height_queries_clamp_bounds_and_edge (g : List (List ℚ))
    (W H : ℕ) (x z : ℚ) (hW : 1 ≤ W) (hH : 1 ≤ H) :
    (∀ v : ℤ,
      (0 ≤ stdClamp v 0 ((W : ℤ) - 1) ∧
        stdClamp v 0 ((W : ℤ) - 1) < (W : ℤ)) ∧
      (0 ≤ stdClamp v 0 ((H : ℤ) - 1) ∧
        stdClamp v 0 ((H : ℤ) - 1) < (H : ℤ))) ∧
      getHeight g W H x z =
        getHeight g W H (max 0 (min x (((W : ℚ) - 1) * 10)))
          (max 0 (min z (((H : ℚ) - 1) * 10))) ∧
      (¬(-10 < x ∧ x < 0) → ¬(-10 < z ∧ z < 0) →
        getInterpolatedHeight g W H x z =
          getInterpolatedHeight g W H (max 0 (min x (((W : ℚ) - 1) * 10)))
            (max 0 (min z (((H : ℚ) - 1) * 10)))) := by
  refine ⟨?_, ?_, ?_⟩
  · intro v
    have hbW := stdClamp_bounds v ((W : ℤ) - 1) (by omega)
    have hbH := stdClamp_bounds v ((H : ℤ) - 1) (by omega)
    exact ⟨⟨hbW.1, by omega⟩, ⟨hbH.1, by omega⟩⟩
  · unfold getHeight
    rw [nearest_index_clamp x W hW, nearest_index_clamp z H hH]
  · intro hx hz
    simp only [getInterpolatedHeight]
    rw [interp_axis_clamp
      (fun i => cellAt g (stdClamp (ratTrunc (z / 10)) 0 ((H : ℤ) - 1)) i)
      x W hW hx]
    rw [interp_axis_clamp
      (fun i => cellAt g (stdClamp (ratTrunc (z / 10) + 1) 0 ((H : ℤ) - 1)) i)
      x W hW hx]
    rw [interp_axis_clamp
      (fun j => mix
        (cellAt g j (stdClamp
          (ratTrunc (max 0 (min x (((W : ℚ) - 1) * 10)) / 10)) 0
          ((W : ℤ) - 1)))
        (cellAt g j (stdClamp
          (ratTrunc (max 0 (min x (((W : ℚ) - 1) * 10)) / 10) + 1) 0
          ((W : ℤ) - 1)))
        (max 0 (min x (((W : ℚ) - 1) * 10)) / 10 -
          (ratTrunc (max 0 (min x (((W : ℚ) - 1) * 10)) / 10) : ℚ)))
      z H hH hz]

/-- C2 counterexample: on the 1×2 grid `[[0, 10]]` the bilinear query at
the out-of-extent coordinate `x = -5` extrapolates to `-5`, while the query
at the nearest in-bounds edge coordinate `x = 0` returns the edge value
`0`. -/
theorem getInterpolatedHeight_edge_counterexample :
    getInterpolatedHeight [[0, 10]] 2 1 (-5) 0 = -5 ∧
      getInterpolatedHeight [[0, 10]] 2 1 0 0 = 0 ∧ (-5 : ℚ) ≠ 0 := by
  refine ⟨?_, ?_, by norm_num⟩ <;>
    norm_num [getInterpolatedHeight, stdClamp, ratTrunc, cellAt, mix]

/-- Witness for C2 (amended) on the grid `[[0, 10]]` at the out-of-extent
coordinates `x = -15`, `z = 25`. -/
theorem height_queries_clamp_bounds_and_edge_witness :
    (1 ≤ 2) ∧ (1 ≤ 1) ∧ ¬((-10 : ℚ) < -15 ∧ (-15 : ℚ) < 0) ∧
      ¬((-10 : ℚ) < 25 ∧ (25 : ℚ) < 0) ∧
      (getInterpolatedHeight [[0, 10]] 2 1 (-15) 25 =
        getInterpolatedHeight [[0, 10]] 2 1
          (max 0 (min (-15) (((2 : ℚ) - 1) * 10)))
          (max 0 (min 25 (((1 : ℚ) - 1) * 10)))) :=
  ⟨by norm_num, by norm_num, by norm_num, by norm_num,
   (height_queries_clamp_bounds_and_edge [[0, 10]] 2 1 (-15) 25
     (by norm_num) (by norm_num)).2.2 (by norm_num) (by norm_num)⟩
